import Mathlib

/-!
Verification of the Truck Load Monitor firmware (src/main.cpp).

Shallow embedding of the parts of the sketch with real logic:
the EEPROM codec (EEPROMWriteInt / EEPROMReadInt / EEPROMWriteFloat /
EEPROMReadFloat), the load-event detector in loop(), the calibration
keypad engine (handleCalibration / getKeypadInput), start-up recovery
in setup(), and the button hit-testing in loop().

Modelling conventions:
* Weight samples and accumulator values are exact rationals.  The source
  stores them in 32-bit floats; float rounding is not modelled, but
  non-finite float results (Inf/NaN) are modelled explicitly via `F32`.
* Rational arithmetic that must evaluate inside concrete theorems is
  written with `mkRat`-based helpers (`qmul`, `qinv`, `qdiv`, `qpow2`),
  because the library's `Rat.add`/`Rat.mul`/`Rat.inv` are irreducible to
  evaluation.  Bridge lemmas below prove the helpers equal the standard
  field operations on `ℚ`.
* EEPROM is a byte-addressed map `Nat → Nat`; `EEPROM.update` writes only
  when the byte differs, which is observationally a plain write, so it is
  modelled as a plain write.
* The 16-bit `int` used for `load_count` and by the u16 codec is modelled
  by its 16-bit pattern.  On AVR `int` is 16 bits; `value & 0xFF` is the
  pattern mod 256 and `(value >> 8) & 0xFF` (arithmetic shift of the
  two's-complement value) extracts the pattern divided by 256, for every
  16-bit pattern, which is how the codec is rendered below.
-/

namespace TruckLoadMonitor

/-- Evaluation-friendly product of rationals (`Rat.mul` is irreducible);
proved equal to `a * b` in `qmul_eq_mul`. -/
def qmul (a b : ℚ) : ℚ := mkRat (a.num * b.num) (a.den * b.den)

/-- Evaluation-friendly inverse of a rational; proved equal to `a⁻¹` in
`qinv_eq_inv`. -/
def qinv (a : ℚ) : ℚ :=
  if a.num < 0 then mkRat (-(a.den : ℤ)) a.num.natAbs
  else mkRat (a.den : ℤ) a.num.natAbs

/-- Evaluation-friendly division of rationals; proved equal to `a / b` in
`qdiv_eq_div`. -/
def qdiv (a b : ℚ) : ℚ := qmul a (qinv b)

/-- Evaluation-friendly integer power of two in `ℚ`; proved equal to
`(2 : ℚ) ^ i` in `qpow2_eq_zpow`. -/
def qpow2 (i : ℤ) : ℚ :=
  if 0 ≤ i then ((2 ^ i.toNat : ℕ) : ℚ) else mkRat 1 (2 ^ (-i).toNat)

/-- The durable byte store (EEPROM): a map from address to byte value. -/
abbrev EEPROM := ℕ → ℕ

/-- EEPROM layout from main.cpp: load count at bytes 0-1. -/
def EEPROM_LOAD_COUNT_ADDR : ℕ := 0

/-- EEPROM layout from main.cpp: total weight at bytes 2-5. -/
def EEPROM_TOTAL_WEIGHT_ADDR : ℕ := 2

/-- EEPROM layout from main.cpp: calibration factor at bytes 6-9. -/
def EEPROM_CAL_FACTOR_ADDR : ℕ := 6

/-- `EEPROMWriteInt(address, value)`: low byte of the 16-bit pattern at
`address`, high byte at `address + 1`. -/
def EEPROMWriteInt (e : EEPROM) (address value : ℕ) : EEPROM :=
  fun a =>
    if a = address then value % 256
    else if a = address + 1 then value / 256 % 256
    else e a

/-- `EEPROMReadInt(address)`: reassembles the 16-bit pattern
`(highByte << 8) | lowByte` (the OR of disjoint byte fields is their sum). -/
def EEPROMReadInt (e : EEPROM) (address : ℕ) : ℕ :=
  (e (address + 1) % 256) * 256 + e address % 256

/-- The value of a 32-bit IEEE-754 float: a finite rational, an infinity,
or NaN. -/
inductive F32 where
  | finite (val : ℚ)
  | inf (negative : Bool)
  | nan
deriving DecidableEq

/-- `isnan` from the C library, on the modelled float values. -/
def isnanF32 : F32 → Bool
  | F32.nan => true
  | _ => false

/-- Decode four little-endian bytes as an IEEE-754 binary32 value
(sign bit, 8 exponent bits, 23 mantissa bits; exponent 255 encodes
infinities and NaNs, exponent 0 encodes subnormals with value
mantissa * 2 ^ (-149); a normal number has value
(2^23 + mantissa) * 2 ^ (exponent - 150)). -/
def decodeF32 (b0 b1 b2 b3 : ℕ) : F32 :=
  let bits : ℕ :=
    b0 % 256 + b1 % 256 * 256 + b2 % 256 * 65536 + b3 % 256 * 16777216
  let sign : ℕ := bits / 2147483648
  let ex : ℕ := bits / 8388608 % 256
  let m : ℕ := bits % 8388608
  if ex = 255 then
    if m = 0 then F32.inf (sign == 1) else F32.nan
  else
    let mag : ℚ :=
      if ex = 0 then mkRat (m : ℤ) (2 ^ 149)
      else qmul ((8388608 + m : ℕ) : ℚ) (qpow2 ((ex : ℤ) - 150))
    F32.finite (if sign == 1 then -mag else mag)

/-- The binary32 bit pattern of an exactly representable rational:
searches the normal exponent range 1..254 for a mantissa in
[2^23, 2^24), then falls back to the subnormal range.  Returns `none`
for rationals that are not exactly representable. -/
def encodeBits (q : ℚ) : Option ℕ :=
  if q = 0 then some 0
  else
    let s : ℕ := if q < 0 then 2147483648 else 0
    let a : ℚ := if q < 0 then -q else q
    match (((List.range 254).map (fun i => i + 1) : List ℕ)).find? (fun (ex : ℕ) =>
        let t := qmul a (qpow2 ((150 : ℤ) - (ex : ℤ)))
        (t.den == 1) && (decide ((8388608 : ℤ) ≤ t.num))
          && (decide (t.num < (16777216 : ℤ)))) with
    | some ex =>
        let t := qmul a (qpow2 ((150 : ℤ) - (ex : ℤ)))
        let mant : ℕ := t.num.toNat - 8388608
        some (s + ex * 8388608 + mant)
    | none =>
        let t := qmul a (qpow2 (149 : ℤ))
        if (t.den == 1) && (decide ((1 : ℤ) ≤ t.num))
            && (decide (t.num < (8388608 : ℤ))) then
          some ((s + t.num.toNat : ℕ))
        else none

/-- The bit pattern a float write puts into EEPROM, for each modelled
float value (canonical patterns for the infinities and NaN). -/
def f32bits : F32 → Option ℕ
  | F32.finite q => encodeBits q
  | F32.inf false => some 2139095040
  | F32.inf true => some 4286578688
  | F32.nan => some 2143289344

/-- `EEPROMWriteFloat(address, value)`: the four raw bytes of the float,
little-endian, at `address..address+3`.  Rationals with no exact binary32
representation are outside this model (no claim exercises them). -/
def EEPROMWriteFloat (e : EEPROM) (address : ℕ) (f : F32) : EEPROM :=
  match f32bits f with
  | some bits => fun a =>
      if a = address then bits % 256
      else if a = address + 1 then bits / 256 % 256
      else if a = address + 2 then bits / 65536 % 256
      else if a = address + 3 then bits / 16777216 % 256
      else e a
  | none => e

/-- `EEPROMReadFloat(address)`: decode the four bytes at
`address..address+3`. -/
def EEPROMReadFloat (e : EEPROM) (address : ℕ) : F32 :=
  decodeF32 (e address) (e (address + 1)) (e (address + 2)) (e (address + 3))

/-- The mutable program state of main.cpp (the globals the core logic
reads and writes), together with the EEPROM contents. -/
structure Sys where
  calibration_factor : F32
  last_weight : ℚ
  current_weight : ℚ
  total_weight : ℚ
  load_count : ℕ
  load_detected : Bool
  isCalibrating : Bool
  enteredWeight : List Char
  eeprom : EEPROM

/-- The initial values of the globals (lines 59-89 of main.cpp), over a
zeroed EEPROM. -/
def sysInit : Sys where
  calibration_factor := F32.finite (-7050)
  last_weight := 0
  current_weight := 0
  total_weight := 0
  load_count := 0
  load_detected := false
  isCalibrating := false
  enteredWeight := []
  eeprom := fun _ => 0

/-- The noise gate of loop(): `if (abs(current_weight) < 0.5)
current_weight = 0;` — `mkRat 1 2` is the rational 0.5. -/
def gate (w : ℚ) : ℚ := if (if w < 0 then -w else w) < mkRat 1 2 then 0 else w

/-- One detector tick of loop() (lines 121-138): gate the sample, set
`load_detected`/`last_weight` on a positive reading, and on a zero
reading while loaded credit the accumulator exactly once. -/
def detectorTick (s : Sys) (w : ℚ) : Sys :=
  let cw := gate w
  if 0 < cw then
    { s with current_weight := cw, load_detected := true, last_weight := cw }
  else if cw = 0 ∧ s.load_detected = true then
    { s with current_weight := cw,
             total_weight := s.total_weight + s.last_weight,
             load_count := s.load_count + 1,
             last_weight := 0,
             load_detected := false }
  else
    { s with current_weight := cw }

/-- The detector applied to a whole sample sequence, one tick per sample. -/
def detectorRun (s : Sys) (ws : List ℚ) : Sys := ws.foldl detectorTick s

/-- The Tare button handler (lines 154-160): zero the reading and the
pending weight, return to Empty; the accumulator is untouched. -/
def tareAction (s : Sys) : Sys :=
  { s with current_weight := 0, last_weight := 0, load_detected := false }

/-- The Store button handler (lines 163-172): persist `load_count` and
`total_weight` to EEPROM. -/
def storeAction (s : Sys) : Sys :=
  let e1 := EEPROMWriteInt s.eeprom EEPROM_LOAD_COUNT_ADDR s.load_count
  let e2 := EEPROMWriteFloat e1 EEPROM_TOTAL_WEIGHT_ADDR (F32.finite s.total_weight)
  { s with eeprom := e2 }

/-- The Reset All button handler (lines 175-195): zero the accumulator and
the detector state, then persist the zeroed counters. -/
def resetAction (s : Sys) : Sys :=
  let s1 := { s with total_weight := 0, load_count := 0, last_weight := 0,
                     current_weight := 0, load_detected := false }
  let e1 := EEPROMWriteInt s1.eeprom EEPROM_LOAD_COUNT_ADDR s1.load_count
  let e2 := EEPROMWriteFloat e1 EEPROM_TOTAL_WEIGHT_ADDR (F32.finite s1.total_weight)
  { s1 with eeprom := e2 }

/-- The calibration-factor recovery in setup() (lines 94-98): read the
stored float; if it is NaN or equal to zero substitute the default
-7050. -/
def setupFactor (e : EEPROM) : F32 :=
  if isnanF32 (EEPROMReadFloat e EEPROM_CAL_FACTOR_ADDR) = true
      ∨ EEPROMReadFloat e EEPROM_CAL_FACTOR_ADDR = F32.finite 0 then
    F32.finite (-7050)
  else EEPROMReadFloat e EEPROM_CAL_FACTOR_ADDR

/-- setup() line 103: reload the persisted load count. -/
def setupLoadCount (e : EEPROM) : ℕ := EEPROMReadInt e EEPROM_LOAD_COUNT_ADDR

/-- setup() line 104: reload the persisted total weight (no validation in
the source). -/
def setupTotalWeight (e : EEPROM) : F32 :=
  EEPROMReadFloat e EEPROM_TOTAL_WEIGHT_ADDR

/-- The value of a decimal digit character. -/
def digitVal (c : Char) : ℕ := c.toNat - 48

/-- The numeric value of a digit string, most significant digit first. -/
def digitsVal (cs : List Char) : ℕ := cs.foldl (fun a c => a * 10 + digitVal c) 0

/-- `String::toFloat` on the keypad's digit/decimal-point alphabet: the
integer part before the first '.', plus the fraction after it. -/
def parseWeight (cs : List Char) : ℚ :=
  let intPart := cs.takeWhile (fun c => c ≠ '.')
  let fracPart := (cs.dropWhile (fun c => c ≠ '.')).drop 1
  mkRat ((digitsVal intPart * 10 ^ fracPart.length + digitsVal fracPart : ℕ) : ℤ)
    (10 ^ fracPart.length)

/-- IEEE-754 float division of finite operands: a zero divisor yields an
infinity (or NaN for 0/0), exactly as `rawValue / knownWeight` behaves in
the source when the entered weight parses to zero. -/
def fdiv (a b : ℚ) : F32 :=
  if b = 0 then
    if a = 0 then F32.nan else F32.inf (decide (a < 0))
  else F32.finite (qdiv a b)

/-- The Enter-key commit of handleCalibration() (lines 326-360): parse the
buffer, divide the raw average reading by it, install and persist the new
factor, leave calibration mode and clear the buffer. -/
def commitCalibration (raw : ℚ) (s : Sys) : Sys :=
  let knownWeight := parseWeight s.enteredWeight
  let factor := fdiv raw knownWeight
  { s with calibration_factor := factor,
           eeprom := EEPROMWriteFloat s.eeprom EEPROM_CAL_FACTOR_ADDR factor,
           isCalibrating := false,
           enteredWeight := [] }

/-- One keypad event of handleCalibration() (lines 314-361): digits are
appended unconditionally, '.' only when absent, 'C' clears, 'E' commits a
non-empty buffer; any other key (including the no-key sentinel 0) does
nothing.  `raw` is the `scale.read_average(10)` reading used on commit. -/
def handleCalibration (raw : ℚ) (s : Sys) (key : Char) : Sys :=
  if key.isDigit = true then
    { s with enteredWeight := s.enteredWeight ++ [key] }
  else if key = '.' then
    if '.' ∈ s.enteredWeight then s
    else { s with enteredWeight := s.enteredWeight ++ ['.'] }
  else if key = 'C' then
    { s with enteredWeight := [] }
  else if key = 'E' then
    if s.enteredWeight = [] then s else commitCalibration raw s
  else s

/-- Strict interior of an axis-aligned button rectangle: every hit test in
the source is `x > X && x < X + W && y > Y && y < Y + H`. -/
def inRect (x y X Y W H : ℤ) : Prop := X < x ∧ x < X + W ∧ Y < y ∧ y < Y + H

instance (x y X Y W H : ℤ) : Decidable (inRect x y X Y W H) :=
  inferInstanceAs (Decidable (X < x ∧ x < X + W ∧ Y < y ∧ y < Y + H))

/-- The four main-screen button actions. -/
inductive ButtonAction where
  | tare
  | store
  | reset
  | calibrate
deriving DecidableEq

/-- The main-screen hit-rectangle chain of loop() (lines 153-201): the
first rectangle strictly containing the point wins, otherwise no action. -/
def dispatchButton (x y : ℤ) : Option ButtonAction :=
  if inRect x y 10 200 100 40 then some ButtonAction.tare
  else if inRect x y 120 200 100 40 then some ButtonAction.store
  else if inRect x y 230 200 100 40 then some ButtonAction.reset
  else if inRect x y 340 200 100 40 then some ButtonAction.calibrate
  else none

/-- getKeypadInput() (lines 414-449): the 4x3 key grid in row-major
order (startX 240, startY 40, key 60x40, spacing 10), then the wide Clear
key; 0 when no key rectangle strictly contains the point. -/
def getKeypadInput (x y : ℤ) : Char :=
  if inRect x y 240 40 60 40 then '1'
  else if inRect x y 310 40 60 40 then '2'
  else if inRect x y 380 40 60 40 then '3'
  else if inRect x y 240 90 60 40 then '4'
  else if inRect x y 310 90 60 40 then '5'
  else if inRect x y 380 90 60 40 then '6'
  else if inRect x y 240 140 60 40 then '7'
  else if inRect x y 310 140 60 40 then '8'
  else if inRect x y 380 140 60 40 then '9'
  else if inRect x y 240 190 60 40 then '.'
  else if inRect x y 310 190 60 40 then '0'
  else if inRect x y 380 190 60 40 then 'E'
  else if inRect x y 240 240 200 40 then 'C'
  else Char.ofNat 0

/-- The four main-screen button rectangles (X, Y, W, H). -/
def buttonRects : List (ℤ × ℤ × ℤ × ℤ) :=
  [(10, 200, 100, 40), (120, 200, 100, 40),
   (230, 200, 100, 40), (340, 200, 100, 40)]

/-- The thirteen keypad key rectangles (X, Y, W, H). -/
def keypadRects : List (ℤ × ℤ × ℤ × ℤ) :=
  [(240, 40, 60, 40), (310, 40, 60, 40), (380, 40, 60, 40),
   (240, 90, 60, 40), (310, 90, 60, 40), (380, 90, 60, 40),
   (240, 140, 60, 40), (310, 140, 60, 40), (380, 140, 60, 40),
   (240, 190, 60, 40), (310, 190, 60, 40), (380, 190, 60, 40),
   (240, 240, 200, 40)]

/-- A point lying exactly on the boundary of the rectangle (X, Y, W, H). -/
def onBoundary (x y X Y W H : ℤ) : Prop :=
  ((x = X ∨ x = X + W) ∧ Y ≤ y ∧ y ≤ Y + H)
    ∨ ((y = Y ∨ y = Y + H) ∧ X ≤ x ∧ x ≤ X + W)

instance (x y X Y W H : ℤ) : Decidable (onBoundary x y X Y W H) :=
  inferInstanceAs (Decidable (_ ∨ _))

/-- Spec-side count (from the spec's words, §8): the number of maximal
runs of positive samples immediately followed by a zero sample, counted
as adjacent pairs (positive, zero) in the gated sequence. -/
def pairCount : List ℚ → ℕ
  | [] => 0
  | a :: rest => (if 0 < a ∧ rest.head? = some 0 then 1 else 0) + pairCount rest

/-- Spec-side count applied to the gated samples. -/
def specRunCount (ws : List ℚ) : ℕ := pairCount (ws.map gate)

/-- The `if`-term of the generalised detector count invariant: an extra
completed cycle when the detector starts out Loaded and the first gated
sample is zero. -/
def startBonus (detected : Bool) (gws : List ℚ) : ℕ :=
  if detected = true ∧ gws.head? = some 0 then 1 else 0

/-- Spec-side extraction (from the spec's words, §8): the last positive
sample observed in each completed load cycle — `seen` records whether a
positive sample has occurred since the last completed cycle, `lastPos`
the most recent positive sample. -/
def specGo (seen : Bool) (lastPos : ℚ) : List ℚ → List ℚ
  | [] => []
  | w :: rest =>
    if 0 < w then specGo true w rest
    else if w = 0 ∧ seen = true then lastPos :: specGo false 0 rest
    else specGo seen lastPos rest

/-- The last positive gated sample of each completed load cycle of a
sample sequence, in order. -/
def specCycleWeights (ws : List ℚ) : List ℚ := specGo false 0 (ws.map gate)

/-- The keypad-buffer invariant from the spec (§3): at most one decimal
point, and only digit or decimal-point characters. -/
def bufferInv (cs : List Char) : Prop :=
  cs.count '.' ≤ 1 ∧ ∀ c ∈ cs, c.isDigit = true ∨ c = '.'

/-- A state that has just entered calibration mode (Calibrate button,
lines 198-201): the buffer is empty and calibration is active. -/
def calibEntry : Sys := { sysInit with isCalibrating := true }

/-- A state in which a load is currently on the scale. -/
def loadedSys : Sys :=
  { sysInit with load_detected := true, last_weight := 7, current_weight := 7 }

/-- An EEPROM whose calibration-factor bytes decode to +Inf
(0x7F800000). -/
def infFactorEEPROM : EEPROM :=
  fun a => if a = 8 then 128 else if a = 9 then 127 else 0

/-! Bridge lemmas: the evaluation-friendly rational helpers agree with the
standard field operations on `ℚ`. -/

theorem qmul_eq_mul (a b : ℚ) : qmul a b = a * b := by
  rw [qmul, Rat.mkRat_eq_div]
  push_cast
  rw [← div_mul_div_comm, Rat.num_div_den, Rat.num_div_den]

theorem qinv_eq_inv (a : ℚ) : qinv a = a⁻¹ := by
  rw [qinv, Rat.inv_def', Rat.divInt_eq_div]
  by_cases hn : a.num < 0
  · rw [if_pos hn, Rat.mkRat_eq_div]
    have h1 : (a.num.natAbs : ℤ) = -a.num := by omega
    have habs : ((a.num.natAbs : ℕ) : ℚ) = -((a.num : ℤ) : ℚ) := by
      rw [← Int.cast_natCast, h1, Int.cast_neg]
    push_cast
    rw [habs, neg_div_neg_eq]
  · rw [if_neg hn, Rat.mkRat_eq_div]
    have h1 : (a.num.natAbs : ℤ) = a.num := by omega
    have habs : ((a.num.natAbs : ℕ) : ℚ) = ((a.num : ℤ) : ℚ) := by
      rw [← Int.cast_natCast, h1]
    push_cast
    rw [habs]

theorem qdiv_eq_div (a b : ℚ) : qdiv a b = a / b := by
  rw [qdiv, qmul_eq_mul, qinv_eq_inv, div_eq_mul_inv]

theorem qpow2_eq_zpow (i : ℤ) : qpow2 i = (2 : ℚ) ^ i := by
  rw [qpow2]
  by_cases hi : 0 ≤ i
  · rw [if_pos hi]
    push_cast
    rw [← zpow_natCast, Int.toNat_of_nonneg hi]
  · rw [if_neg hi, Rat.mkRat_eq_div]
    push_cast
    rw [one_div, ← zpow_natCast, ← zpow_neg, Int.toNat_of_nonneg (by omega), neg_neg]

/-! Detector unfolding lemmas. -/

theorem detectorRun_nil (s : Sys) : detectorRun s [] = s := rfl

theorem detectorRun_cons (s : Sys) (w : ℚ) (ws : List ℚ) :
    detectorRun s (w :: ws) = detectorRun (detectorTick s w) ws := rfl

theorem detectorTick_pos (s : Sys) (w : ℚ) (h : 0 < gate w) :
    detectorTick s w =
      { s with current_weight := gate w, load_detected := true,
               last_weight := gate w } := by
  simp only [detectorTick]
  rw [if_pos h]

theorem detectorTick_close (s : Sys) (w : ℚ) (h : gate w = 0)
    (hd : s.load_detected = true) :
    detectorTick s w =
      { s with current_weight := 0,
               total_weight := s.total_weight + s.last_weight,
               load_count := s.load_count + 1,
               last_weight := 0,
               load_detected := false } := by
  simp only [detectorTick, h]
  rw [if_neg (lt_irrefl 0), if_pos ⟨trivial, hd⟩]

theorem detectorTick_idle (s : Sys) (w : ℚ) (h : gate w = 0)
    (hd : s.load_detected = false) :
    detectorTick s w = { s with current_weight := 0 } := by
  simp only [detectorTick, h]
  rw [if_neg (lt_irrefl 0), if_neg (by simp [hd])]

theorem detectorTick_neg (s : Sys) (w : ℚ) (h : gate w < 0) :
    detectorTick s w = { s with current_weight := gate w } := by
  simp only [detectorTick]
  rw [if_neg (not_lt.mpr h.le), if_neg (by rintro ⟨h0, _⟩; rw [h0] at h; exact lt_irrefl 0 h)]

/-- Unfolding equation for `pairCount` on a cons cell. -/
theorem pairCount_cons (a : ℚ) (l : List ℚ) :
    pairCount (a :: l) =
      (if 0 < a ∧ l.head? = some 0 then 1 else 0) + pairCount l := rfl

/-- `startBonus` vanishes when the detector starts Empty. -/
theorem startBonus_false (l : List ℚ) : startBonus false l = 0 := by
  unfold startBonus
  rw [if_neg (fun hc => Bool.false_ne_true hc.1)]

/-- `startBonus` for a Loaded start looks only at the first gated sample. -/
theorem startBonus_true (l : List ℚ) :
    startBonus true l = if l.head? = some 0 then 1 else 0 := by
  unfold startBonus
  exact if_congr (by simp) rfl rfl

/-- `startBonus` on a cons cell. -/
theorem startBonus_cons (d : Bool) (a : ℚ) (l : List ℚ) :
    startBonus d (a :: l) = if d = true ∧ a = 0 then 1 else 0 := by
  unfold startBonus
  rw [List.head?_cons]
  exact if_congr (by simp) rfl rfl

/-- Unfolding equation for `specGo` on a cons cell. -/
theorem specGo_cons (seen : Bool) (lp : ℚ) (w : ℚ) (l : List ℚ) :
    specGo seen lp (w :: l) =
      if 0 < w then specGo true w l
      else if w = 0 ∧ seen = true then lp :: specGo false 0 l
      else specGo seen lp l := rfl

/-- Generalised count invariant of the detector on nonnegative gated
samples: the final count adds one per adjacent (positive, zero) gated
pair, plus one if the run started Loaded and the first gated sample is
zero. -/
theorem detectorRun_count_aux (ws : List ℚ) :
    ∀ s : Sys, (∀ w ∈ ws, 0 ≤ gate w) →
      (detectorRun s ws).load_count =
        s.load_count + pairCount (ws.map gate)
          + startBonus s.load_detected (ws.map gate) := by
  induction ws with
  | nil =>
    intro s _
    simp [detectorRun_nil, pairCount, startBonus]
  | cons w rest ih =>
    intro s h
    have hw : 0 ≤ gate w := h w (List.mem_cons_self w rest)
    have hrest : ∀ v ∈ rest, 0 ≤ gate v := fun v hv => h v (List.mem_cons_of_mem w hv)
    rw [detectorRun_cons, List.map_cons]
    rcases eq_or_lt_of_le hw with hzero | hpos
    · have hlt : ¬(0 < gate w ∧ (rest.map gate).head? = some 0) := by
        rw [← hzero]
        rintro ⟨hc, _⟩
        exact lt_irrefl 0 hc
      cases hd : s.load_detected with
      | true =>
        have hx := ih (detectorTick s w) hrest
        rw [detectorTick_close s w hzero.symm hd] at hx ⊢
        dsimp only at hx
        rw [hx, pairCount_cons, startBonus_false, startBonus_cons]
        rw [if_neg hlt, if_pos ⟨rfl, hzero.symm⟩]
        omega
      | false =>
        have hx := ih (detectorTick s w) hrest
        rw [detectorTick_idle s w hzero.symm hd] at hx ⊢
        dsimp only at hx
        rw [hd] at hx ⊢
        rw [hx, pairCount_cons, startBonus_false, startBonus_false]
        rw [if_neg hlt]
        omega
    · have hx := ih (detectorTick s w) hrest
      rw [detectorTick_pos s w hpos] at hx ⊢
      dsimp only at hx
      rw [hx, pairCount_cons, startBonus_true, startBonus_cons]
      rw [if_neg (show ¬(s.load_detected = true ∧ gate w = 0) from
        fun hc => ne_of_gt hpos hc.2)]
      by_cases hh : (rest.map gate).head? = some 0
      · rw [if_pos hh, if_pos ⟨hpos, hh⟩]
        omega
      · rw [if_neg hh, if_neg (fun hc => hh hc.2)]
        omega

/-- Generalised cycle invariant of the detector: the final accumulator
adds the sum of the spec-side per-cycle last positive weights, and the
final count adds their number. -/
theorem detectorRun_cycles_aux (ws : List ℚ) :
    ∀ s : Sys,
      (detectorRun s ws).total_weight =
        s.total_weight + (specGo s.load_detected s.last_weight (ws.map gate)).sum
      ∧ (detectorRun s ws).load_count =
        s.load_count + (specGo s.load_detected s.last_weight (ws.map gate)).length := by
  induction ws with
  | nil =>
    intro s
    simp [detectorRun_nil, specGo]
  | cons w rest ih =>
    intro s
    rw [detectorRun_cons, List.map_cons]
    rcases lt_trichotomy (gate w) 0 with hneg | hzero | hpos
    · have hx := ih (detectorTick s w)
      rw [detectorTick_neg s w hneg] at hx ⊢
      dsimp only at hx
      rw [specGo_cons, if_neg (not_lt.mpr hneg.le), if_neg (fun hc => hneg.ne hc.1)]
      exact hx
    · have hnlt : ¬(0 < gate w) := by
        rw [hzero]
        exact lt_irrefl 0
      cases hd : s.load_detected with
      | true =>
        have hx := ih (detectorTick s w)
        rw [detectorTick_close s w hzero hd] at hx ⊢
        dsimp only at hx
        rw [specGo_cons, if_neg hnlt, if_pos ⟨hzero, rfl⟩]
        simp only [List.sum_cons, List.length_cons]
        refine ⟨?_, ?_⟩
        · rw [hx.1]
          ring
        · rw [hx.2]
          omega
      | false =>
        have hx := ih (detectorTick s w)
        rw [detectorTick_idle s w hzero hd] at hx ⊢
        dsimp only at hx
        rw [hd] at hx ⊢
        rw [specGo_cons, if_neg hnlt, if_neg (fun hc => Bool.false_ne_true hc.2)]
        exact hx
    · have hx := ih (detectorTick s w)
      rw [detectorTick_pos s w hpos] at hx ⊢
      dsimp only at hx
      rw [specGo_cons, if_pos hpos]
      exact hx

/-- Every keypad event preserves the buffer invariant: at most one
decimal point and only digit/decimal characters. -/
theorem handleCalibration_bufferInv (raw : ℚ) (s : Sys) (key : Char)
    (h : bufferInv s.enteredWeight) :
    bufferInv (handleCalibration raw s key).enteredWeight := by
  rcases h with ⟨hcount, hmem⟩
  simp only [handleCalibration]
  split_ifs with h1 h2 h3 h4 h5 h6
  · refine ⟨?_, ?_⟩
    · have hne : key ≠ '.' := by
        intro hk
        rw [hk] at h1
        exact absurd h1 (by decide)
      rw [List.count_append]
      have : List.count '.' [key] = 0 := by
        simp [List.count_cons, List.count_nil, hne]
      omega
    · intro c hc
      rcases List.mem_append.mp hc with hc | hc
      · exact hmem c hc
      · rw [List.mem_singleton.mp hc]
        exact Or.inl h1
  · exact ⟨hcount, hmem⟩
  · refine ⟨?_, ?_⟩
    · rw [List.count_append]
      have h0 : List.count '.' s.enteredWeight = 0 :=
        List.count_eq_zero_of_not_mem h3
      have h4 : List.count '.' ['.'] = 1 := by decide
      omega
    · intro c hc
      rcases List.mem_append.mp hc with hc | hc
      · exact hmem c hc
      · rw [List.mem_singleton.mp hc]
        exact Or.inr rfl
  · exact ⟨by simp, by simp⟩
  · exact ⟨hcount, hmem⟩
  · simp only [commitCalibration]
    exact ⟨by simp, by simp⟩
  · exact ⟨hcount, hmem⟩

/-- The buffer invariant is preserved by any whole key sequence. -/
theorem foldl_bufferInv (raw : ℚ) (keys : List Char) :
    ∀ s : Sys, bufferInv s.enteredWeight →
      bufferInv ((keys.foldl (handleCalibration raw) s).enteredWeight) := by
  induction keys with
  | nil =>
    intro s hs
    simpa using hs
  | cons k rest ih =>
    intro s hs
    rw [List.foldl_cons]
    exact ih _ (handleCalibration_bufferInv raw s k hs)

/-! Claim theorems. -/

/-- C1 (counterexample): on the sample sequence 5, -1, 5, -1, 0 the
detector increments `load_count` once, yet the gated sequence contains no
maximal run of positive samples followed by a zero sample
(`specRunCount` is 0): a negative post-gate sample ends a positive run
without resetting `load_detected`, so the per-run counting rule stated
for every sequence fails. -/
theorem load_count_run_rule_counterexample :
    (detectorRun sysInit [(5 : ℚ), -1, 5, -1, 0]).load_count
        ≠ sysInit.load_count + specRunCount [(5 : ℚ), -1, 5, -1, 0]
    ∧ (detectorRun sysInit [(5 : ℚ), -1, 5, -1, 0]).load_count = 1
    ∧ specRunCount [(5 : ℚ), -1, 5, -1, 0] = 0 := by decide

/-- C1 (amended): for every sample sequence whose post-gate samples are
all nonnegative, starting from an Empty detector, `load_count` increases
by exactly 1 per maximal run of post-gate positive samples immediately
followed by a post-gate zero sample, and by 0 otherwise — never more
than once per run, regardless of the run's length. -/
theorem load_count_per_positive_run (ws : List ℚ) (s : Sys)
    (hg : ∀ w ∈ ws, 0 ≤ gate w) (hd : s.load_detected = false) :
    (detectorRun s ws).load_count = s.load_count + specRunCount ws := by
  rw [specRunCount, detectorRun_count_aux ws s hg, hd, startBonus_false]
  omega

/-- C1 (witness): the amended run-counting law evaluated on the concrete
sequence 1, 0, 2, 3, 0, 0. -/
theorem load_count_per_positive_run_witness :
    (∀ w ∈ [(1 : ℚ), 0, 2, 3, 0, 0], 0 ≤ gate w)
    ∧ sysInit.load_detected = false
    ∧ (detectorRun sysInit [(1 : ℚ), 0, 2, 3, 0, 0]).load_count
        = sysInit.load_count + specRunCount [(1 : ℚ), 0, 2, 3, 0, 0] :=
  ⟨by decide, rfl, load_count_per_positive_run _ _ (by decide) rfl⟩

/-- C2: from an Empty detector with no pending weight, after any sample
sequence `total_weight` has grown by the sum of the last post-gate
positive sample observed in each completed load cycle (and `load_count`
by the number of completed cycles), because `last_weight` is overwritten
on every tick a positive sample is seen. -/
theorem total_weight_sums_last_positive (ws : List ℚ) (s : Sys)
    (hd : s.load_detected = false) (hl : s.last_weight = 0) :
    (detectorRun s ws).total_weight = s.total_weight + (specCycleWeights ws).sum
    ∧ (detectorRun s ws).load_count
        = s.load_count + (specCycleWeights ws).length := by
  have hx := detectorRun_cycles_aux ws s
  rw [hd, hl] at hx
  rw [specCycleWeights]
  exact hx

/-- C2 (witness): on the sequence 3, 2, 0 the single cycle credits 2 (the
last positive sample, not the first or the maximum 3). -/
theorem total_weight_sums_last_positive_witness :
    sysInit.load_detected = false ∧ sysInit.last_weight = 0
    ∧ ((detectorRun sysInit [(3 : ℚ), 2, 0]).total_weight
          = sysInit.total_weight + (specCycleWeights [(3 : ℚ), 2, 0]).sum
      ∧ (detectorRun sysInit [(3 : ℚ), 2, 0]).load_count
          = sysInit.load_count + (specCycleWeights [(3 : ℚ), 2, 0]).length) :=
  ⟨rfl, rfl, total_weight_sums_last_positive _ _ rfl rfl⟩

/-- C3 (code bug, evaluated at the failing input): pressing 'E' with
entry buffer "0" and raw average 8750 is NOT rejected — the code leaves
calibration mode and installs and persists the infinite factor 8750/0,
instead of rejecting the commit and leaving the factor unchanged.  The
valid commit "12.5" with raw average 8750 yields exactly factor 700 and
persists it. -/
theorem zero_weight_commit_not_rejected :
    ((handleCalibration 8750 { calibEntry with enteredWeight := ['0'] } 'E').isCalibrating
        = false
      ∧ (handleCalibration 8750 { calibEntry with enteredWeight := ['0'] } 'E').calibration_factor
        = F32.inf false
      ∧ EEPROMReadFloat
          (handleCalibration 8750 { calibEntry with enteredWeight := ['0'] } 'E').eeprom
          EEPROM_CAL_FACTOR_ADDR = F32.inf false)
    ∧ ((handleCalibration 8750 { calibEntry with enteredWeight := ['1', '2', '.', '5'] } 'E').calibration_factor
        = F32.finite 700
      ∧ EEPROMReadFloat
          (handleCalibration 8750 { calibEntry with enteredWeight := ['1', '2', '.', '5'] } 'E').eeprom
          EEPROM_CAL_FACTOR_ADDR = F32.finite 700
      ∧ (handleCalibration 8750 { calibEntry with enteredWeight := ['1', '2', '.', '5'] } 'E').isCalibrating
        = false) := by decide

set_option maxRecDepth 8000 in
/-- C4: Reset zeroes `load_count` and `total_weight` in one transition
(together with the detector state), persists both, and reloading the
persisted state the way setup() does yields count 0 and total weight 0. -/
theorem reset_zeroes_and_roundtrips (s : Sys) :
    (resetAction s).load_count = 0
    ∧ (resetAction s).total_weight = 0
    ∧ (resetAction s).last_weight = 0
    ∧ (resetAction s).load_detected = false
    ∧ setupLoadCount (resetAction s).eeprom = 0
    ∧ setupTotalWeight (resetAction s).eeprom = F32.finite 0 := by
  refine ⟨rfl, rfl, rfl, rfl, ?_, ?_⟩
  · show EEPROMReadInt
      (EEPROMWriteFloat (EEPROMWriteInt s.eeprom 0 0) 2 (F32.finite 0)) 0 = 0
    rfl
  · show decodeF32 0 0 0 0 = F32.finite 0
    decide

/-- C5: for every 16-bit value, the u16 codec writes the low byte at
`addr`, the high byte at `addr + 1`, and reading back returns the value:
encode followed by decode is the identity on the full 16-bit range. -/
theorem eeprom_u16_roundtrip (e : EEPROM) (addr v : ℕ) (h : v < 65536) :
    EEPROMWriteInt e addr v addr = v % 256
    ∧ EEPROMWriteInt e addr v (addr + 1) = v / 256
    ∧ EEPROMReadInt (EEPROMWriteInt e addr v) addr = v := by
  refine ⟨?_, ?_, ?_⟩
  · show (if addr = addr then v % 256
      else if addr = addr + 1 then v / 256 % 256 else e addr) = v % 256
    rw [if_pos rfl]
  · show (if addr + 1 = addr then v % 256
      else if addr + 1 = addr + 1 then v / 256 % 256 else e (addr + 1)) = v / 256
    rw [if_neg (by omega : ¬(addr + 1 = addr)), if_pos rfl]
    omega
  · show ((if addr + 1 = addr then v % 256
        else if addr + 1 = addr + 1 then v / 256 % 256 else e (addr + 1)) % 256) * 256
      + (if addr = addr then v % 256
        else if addr = addr + 1 then v / 256 % 256 else e addr) % 256 = v
    rw [if_neg (by omega : ¬(addr + 1 = addr)), if_pos rfl, if_pos rfl]
    omega

/-- C5 (witness): the codec round-trips 40000, a value above 32768. -/
theorem eeprom_u16_roundtrip_witness :
    40000 < 65536
    ∧ (EEPROMWriteInt (fun _ => 0) 0 40000 0 = 40000 % 256
      ∧ EEPROMWriteInt (fun _ => 0) 0 40000 (0 + 1) = 40000 / 256
      ∧ EEPROMReadInt (EEPROMWriteInt (fun _ => 0) 0 40000) 0 = 40000) :=
  ⟨by decide, eeprom_u16_roundtrip (fun _ => 0) 0 40000 (by decide)⟩

/-- C6: after any keypad key sequence in a fresh calibration session the
entry buffer holds at most one decimal point and only digit/decimal
characters, and the concrete sequence '1', '.', '2', '.' leaves the
buffer equal to "1.2" (the second decimal point is silently ignored). -/
theorem entry_buffer_invariant :
    (∀ keys : List Char, ∀ raw : ℚ,
        bufferInv ((keys.foldl (handleCalibration raw) calibEntry).enteredWeight))
    ∧ (['1', '.', '2', '.'].foldl (handleCalibration 0) calibEntry).enteredWeight
      = ['1', '.', '2'] := by
  constructor
  · intro keys raw
    exact foldl_bufferInv raw keys calibEntry
      ⟨by simp [calibEntry, sysInit], by simp [calibEntry, sysInit]⟩
  · decide

/-- C7 (counterexample): an EEPROM whose calibration-factor bytes decode
to +Inf is NOT replaced by the documented default at start-up — the Inf
value passes the `isnan || == 0` guard of setup() and is used as-is. -/
theorem setup_factor_inf_kept :
    setupFactor infFactorEEPROM = F32.inf false
    ∧ F32.inf false ≠ F32.finite (-7050)
    ∧ isnanF32 (F32.inf false) = false := by decide

/-- C7 (amended): at start-up a stored calibration factor decoding to NaN
or to zero is replaced by the documented default -7050 (which is neither
zero nor NaN), without surfacing an error; any other stored value —
including an infinity — is used as-is. -/
theorem setup_factor_default_substitution (e : EEPROM) :
    (EEPROMReadFloat e EEPROM_CAL_FACTOR_ADDR = F32.nan →
        setupFactor e = F32.finite (-7050))
    ∧ (EEPROMReadFloat e EEPROM_CAL_FACTOR_ADDR = F32.finite 0 →
        setupFactor e = F32.finite (-7050))
    ∧ (∀ q : ℚ, q ≠ 0 →
        EEPROMReadFloat e EEPROM_CAL_FACTOR_ADDR = F32.finite q →
        setupFactor e = F32.finite q)
    ∧ (∀ b : Bool, EEPROMReadFloat e EEPROM_CAL_FACTOR_ADDR = F32.inf b →
        setupFactor e = F32.inf b)
    ∧ (-7050 : ℚ) ≠ 0 ∧ isnanF32 (F32.finite (-7050)) = false := by
  refine ⟨?_, ?_, ?_, ?_, by norm_num, rfl⟩
  · intro h
    unfold setupFactor
    rw [h, if_pos (show isnanF32 F32.nan = true ∨ F32.nan = F32.finite 0 from
      Or.inl rfl)]
  · intro h
    unfold setupFactor
    rw [h, if_pos (show isnanF32 (F32.finite 0) = true
        ∨ F32.finite 0 = F32.finite 0 from Or.inr rfl)]
  · intro q hq h
    unfold setupFactor
    rw [h, if_neg (show ¬(isnanF32 (F32.finite q) = true
        ∨ F32.finite q = F32.finite 0) from by
      rintro (h1 | h2)
      · exact Bool.false_ne_true h1
      · exact hq (by injection h2))]
  · intro b h
    unfold setupFactor
    rw [h, if_neg (show ¬(isnanF32 (F32.inf b) = true
        ∨ F32.inf b = F32.finite 0) from by
      rintro (h1 | h2)
      · exact Bool.false_ne_true h1
      · exact F32.noConfusion h2)]

/-- C7 (witness): the all-0xFF EEPROM decodes to NaN, and start-up
substitutes the default -7050 for it. -/
theorem setup_factor_default_substitution_witness :
    EEPROMReadFloat (fun _ => 255) EEPROM_CAL_FACTOR_ADDR = F32.nan
    ∧ setupFactor (fun _ => 255) = F32.finite (-7050) :=
  ⟨by decide, (setup_factor_default_substitution (fun _ => 255)).1 (by decide)⟩

/-- C8: a Tare taken while the detector is Loaded forces the state back
to Empty and zeroes `last_weight` and the current reading, while leaving
`load_count` and `total_weight` exactly as they were. -/
theorem tare_preserves_accumulator (s : Sys) (h : s.load_detected = true) :
    (tareAction s).load_detected = false
    ∧ (tareAction s).last_weight = 0
    ∧ (tareAction s).current_weight = 0
    ∧ (tareAction s).load_count = s.load_count
    ∧ (tareAction s).total_weight = s.total_weight :=
  ⟨rfl, rfl, rfl, rfl, rfl⟩

/-- C8 (witness): Tare on a concrete Loaded state. -/
theorem tare_preserves_accumulator_witness :
    loadedSys.load_detected = true
    ∧ ((tareAction loadedSys).load_detected = false
      ∧ (tareAction loadedSys).last_weight = 0
      ∧ (tareAction loadedSys).current_weight = 0
      ∧ (tareAction loadedSys).load_count = loadedSys.load_count
      ∧ (tareAction loadedSys).total_weight = loadedSys.total_weight) :=
  ⟨rfl, tare_preserves_accumulator loadedSys rfl⟩

/-- C9: every hit test uses strict inequalities on all four edges, so a
point lying exactly on any hit-rectangle boundary matches no main-screen
button (dispatch yields none) and no keypad key (the no-key sentinel 0
is returned) — the same classification for every rectangle. -/
theorem boundary_point_dispatches_none :
    (∀ x y X Y W H : ℤ, (X, Y, W, H) ∈ buttonRects → onBoundary x y X Y W H →
        dispatchButton x y = none)
    ∧ (∀ x y X Y W H : ℤ, (X, Y, W, H) ∈ keypadRects → onBoundary x y X Y W H →
        getKeypadInput x y = Char.ofNat 0) := by
  constructor
  · intro x y X Y W H hm hb
    simp only [buttonRects, List.mem_cons, List.not_mem_nil, or_false,
      Prod.mk.injEq] at hm
    simp only [onBoundary] at hb
    simp only [dispatchButton, inRect]
    split_ifs <;> first | rfl | (exfalso; omega)
  · intro x y X Y W H hm hb
    simp only [keypadRects, List.mem_cons, List.not_mem_nil, or_false,
      Prod.mk.injEq] at hm
    simp only [onBoundary] at hb
    unfold getKeypadInput
    rw [if_neg (show ¬ inRect x y 240 40 60 40 from by simp only [inRect]; omega)]
    rw [if_neg (show ¬ inRect x y 310 40 60 40 from by simp only [inRect]; omega)]
    rw [if_neg (show ¬ inRect x y 380 40 60 40 from by simp only [inRect]; omega)]
    rw [if_neg (show ¬ inRect x y 240 90 60 40 from by simp only [inRect]; omega)]
    rw [if_neg (show ¬ inRect x y 310 90 60 40 from by simp only [inRect]; omega)]
    rw [if_neg (show ¬ inRect x y 380 90 60 40 from by simp only [inRect]; omega)]
    rw [if_neg (show ¬ inRect x y 240 140 60 40 from by simp only [inRect]; omega)]
    rw [if_neg (show ¬ inRect x y 310 140 60 40 from by simp only [inRect]; omega)]
    rw [if_neg (show ¬ inRect x y 380 140 60 40 from by simp only [inRect]; omega)]
    rw [if_neg (show ¬ inRect x y 240 190 60 40 from by simp only [inRect]; omega)]
    rw [if_neg (show ¬ inRect x y 310 190 60 40 from by simp only [inRect]; omega)]
    rw [if_neg (show ¬ inRect x y 380 190 60 40 from by simp only [inRect]; omega)]
    rw [if_neg (show ¬ inRect x y 240 240 200 40 from by simp only [inRect]; omega)]

/-- C9 (witness): the right edge of the Tare button dispatches to no
button, and the right edge of keypad key '1' yields the no-key
sentinel. -/
theorem boundary_point_dispatches_none_witness :
    ((10, 200, 100, 40) ∈ buttonRects ∧ onBoundary 110 220 10 200 100 40
      ∧ dispatchButton 110 220 = none)
    ∧ ((240, 40, 60, 40) ∈ keypadRects ∧ onBoundary 300 60 240 40 60 40
      ∧ getKeypadInput 300 60 = Char.ofNat 0) :=
  ⟨⟨by decide, by decide,
      boundary_point_dispatches_none.1 110 220 10 200 100 40 (by decide) (by decide)⟩,
    ⟨by decide, by decide,
      boundary_point_dispatches_none.2 300 60 240 40 60 40 (by decide) (by decide)⟩⟩

/-- C10: while calibrating, the only transition back to normal operation
is the commit key 'E' on a non-empty buffer; 'C' empties the buffer but
stays in calibration mode, 'E' on an empty buffer changes nothing, and
the exiting commit clears the buffer. -/
theorem commitCalibration_isCalibrating (raw : ℚ) (s : Sys) :
    (commitCalibration raw s).isCalibrating = false := rfl

theorem commitCalibration_enteredWeight (raw : ℚ) (s : Sys) :
    (commitCalibration raw s).enteredWeight = [] := rfl

theorem calibration_exit_only_by_commit (raw : ℚ) (s : Sys) (key : Char)
    (hc : s.isCalibrating = true) :
    ((handleCalibration raw s key).isCalibrating = false ↔
        key = 'E' ∧ s.enteredWeight ≠ [])
    ∧ (key = 'C' → (handleCalibration raw s key).isCalibrating = true
        ∧ (handleCalibration raw s key).enteredWeight = [])
    ∧ (key = 'E' → s.enteredWeight = [] → handleCalibration raw s key = s)
    ∧ (key = 'E' → s.enteredWeight ≠ [] →
        (handleCalibration raw s key).enteredWeight = []
        ∧ (handleCalibration raw s key).isCalibrating = false) := by
  by_cases hE : key = 'E'
  · subst hE
    simp only [handleCalibration]
    rw [if_neg (by decide : ¬(Char.isDigit 'E' = true)),
      if_neg (by decide : ¬('E' = '.')), if_neg (by decide : ¬('E' = 'C')),
      if_pos trivial]
    by_cases hb : s.enteredWeight = []
    · rw [if_pos hb]
      refine ⟨?_, ?_, ?_, ?_⟩
      · rw [hc]
        simp [hb]
      · intro h
        exact absurd h (by decide)
      · intro _ _
        rfl
      · intro _ hne
        exact absurd hb hne
    · rw [if_neg hb]
      refine ⟨?_, ?_, ?_, ?_⟩
      · rw [commitCalibration_isCalibrating]
        simp [hb]
      · intro h
        exact absurd h (by decide)
      · intro _ h
        exact absurd h hb
      · intro _ _
        exact ⟨commitCalibration_enteredWeight raw s, commitCalibration_isCalibrating raw s⟩
  · have hpreserve : (handleCalibration raw s key).isCalibrating = s.isCalibrating := by
      simp only [handleCalibration]
      split_ifs <;> first | rfl | (exact absurd (by assumption) hE)
    refine ⟨?_, ?_, ?_, ?_⟩
    · rw [hpreserve, hc]
      simp [hE]
    · intro hCk
      refine ⟨by rw [hpreserve]; exact hc, ?_⟩
      subst hCk
      simp only [handleCalibration]
      rw [if_neg (by decide : ¬(Char.isDigit 'C' = true)),
        if_neg (by decide : ¬('C' = '.')), if_pos trivial]
    · intro h
      exact absurd h hE
    · intro h
      exact absurd h hE

/-- C10 (witness): the exit rule evaluated on a calibrating state with
buffer "1". -/
theorem calibration_exit_only_by_commit_witness :
    ({ calibEntry with enteredWeight := ['1'] } : Sys).isCalibrating = true
    ∧ ((handleCalibration 10 { calibEntry with enteredWeight := ['1'] } 'E').isCalibrating
          = false
        ↔ 'E' = 'E'
          ∧ ({ calibEntry with enteredWeight := ['1'] } : Sys).enteredWeight ≠ []) :=
  ⟨rfl, (calibration_exit_only_by_commit 10 { calibEntry with enteredWeight := ['1'] } 'E' rfl).1⟩

end TruckLoadMonitor
